import Mathlib

/-!
Verification of the metadata-acquisition constants module
(wherehows-web/app/constants/metadata-acquisition.ts) and of the
SchemaDefinition record against their specification.

Strings are modelled through their lists of characters (String.data).
JavaScript objects built by Object.assign / spread are modelled as
association lists in insertion order with overwrite-in-place semantics.
The enumerations imported from wherehows-web/constants/datasets/compliance
are not part of the given sources, so they appear as parameters; the fixed
constants drawn from them (category values, the limited-distribution
classification) are modelled from the spec.
-/

/-- Model of the regex replace in `string.replace(/[A-Z]/g, match => " " + match)`:
insert a space character before every uppercase ASCII letter. -/
def insertSpacesL : List Char → List Char
  | [] => []
  | c :: cs => if c.isUpper then ' ' :: c :: insertSpacesL cs else c :: insertSpacesL cs

/-- Modelled from the spec: the Ember `capitalize` helper (imported from
@ember/string, absent from the sources) uppercases only the first character
of the string and leaves every other character unchanged. -/
def capitalizeL : List Char → List Char
  | [] => []
  | c :: cs => c.toUpper :: cs

/-- Source: `const formatAsCapitalizedStringWithSpaces = (string) =>
capitalize(string.replace(/[A-Z]/g, match => " " + match))`. -/
def formatAsCapitalizedStringWithSpaces (s : String) : String :=
  ⟨capitalizeL (insertSpacesL s.data)⟩

/-- Spec-side formulation of the space-insertion step, stated independently:
every uppercase letter is preceded by an inserted space, other characters
pass through. -/
def specInsertSpaces (s : String) : String :=
  ⟨s.data.foldr (fun c acc => (if c.isUpper then [' ', c] else [c]) ++ acc) []⟩

/-- Spec-side formulation of the whole transform: insert a space before every
uppercase letter, then capitalize only the first character of the result. -/
def specCapitalizedWithSpaces (s : String) : String :=
  match (specInsertSpaces s).data with
  | [] => ""
  | c :: cs => ⟨c.toUpper :: cs⟩

/-- Modelled from the spec: `fieldIdentifierTypes` (imported from the absent
compliance constants module) carries one category record per identifier
category; the generic (mixed) category has value "generic" and the custom
category has value "custom". -/
structure FieldIdCategory where
  value : String

namespace fieldIdentifierTypes

/-- Modelled from the spec: the generic (mixed id) category constant. -/
def generic : FieldIdCategory := ⟨"generic"⟩

/-- Modelled from the spec: the custom id category constant. -/
def custom : FieldIdCategory := ⟨"custom"⟩

end fieldIdentifierTypes

/-- Source: `const isMixedId = (identifierType) => identifierType ===
fieldIdentifierTypes.generic.value`. -/
def isMixedId (identifierType : String) : Bool :=
  identifierType == fieldIdentifierTypes.generic.value

/-- Source: `const isCustomId = (identifierType) => identifierType ===
fieldIdentifierTypes.custom.value`. -/
def isCustomId (identifierType : String) : Bool :=
  identifierType == fieldIdentifierTypes.custom.value

/-- Source: `hasPredefinedFieldFormat` returns `isMixedId(identifierType) ||
isCustomId(identifierType)`. -/
def hasPredefinedFieldFormat (identifierType : String) : Bool :=
  isMixedId identifierType || isCustomId identifierType

/-- Source: `getDefaultLogicalType` returns the string "URN" when `isMixedId`
holds and returns undefined (absence) otherwise. -/
def getDefaultLogicalType (identifierType : String) : Option String :=
  if isMixedId identifierType then some "URN" else none

/-- Modelled from the spec: the Classification enum (imported from the absent
compliance constants module) is a string-valued enumeration; its
LimitedDistribution member has underlying value "limitedDistribution", whose
formatted label is "Limited Distribution". -/
def limitedDistribution : String := "limitedDistribution"

/-- Modelled from the spec: each entry of the external registry
`nonIdFieldLogicalTypes` carries at least a classification and a displayAs
label for the generic logical type it describes. -/
structure NonIdMeta where
  classification : String
  displayAs : String

/-- A JavaScript object with string values, modelled as its entry list in
insertion order. -/
abbrev JSObj := List (String × String)

/-- JS property read: the value at the first entry whose key matches. -/
def objLookup : JSObj → String → Option String
  | [], _ => none
  | p :: ps, k => if p.1 = k then some p.2 else objLookup ps k

/-- JS property assignment: when the key is already present its entry is
updated in place, otherwise the new entry is appended. -/
def objInsert (m : JSObj) (k v : String) : JSObj :=
  if m.any (fun p => p.1 == k) then m.map (fun p => if p.1 = k then (k, v) else p)
  else m ++ [(k, v)]

/-- JS Object.values: entry values in insertion order. -/
def objValues (m : JSObj) : List String := m.map Prod.snd

/-- First-some choice on options, used to express which of two maps wins a
lookup after a spread merge. -/
def optOr : Option String → Option String → Option String
  | some v, _ => some v
  | none, b => b

/-- Source: `idFieldDataTypeClassification` reduces the concatenation of
`customIdLogicalTypes` and `idLogicalTypes` (in that order) into an object
mapping each name to `Classification.LimitedDistribution`, starting from the
empty object. The two enumerations are parameters because their module is not
among the given sources. -/
def idFieldDataTypeClassification (customIdLogicalTypes idLogicalTypes : List String) : JSObj :=
  (customIdLogicalTypes ++ idLogicalTypes).foldl (fun m t => objInsert m t limitedDistribution) []

/-- Source: `nonIdFieldDataTypeClassification` reduces `genericLogicalTypes`
into an object mapping each name to the classification declared on its
`nonIdFieldLogicalTypes` registry entry, starting from the empty object. -/
def nonIdFieldDataTypeClassification (genericLogicalTypes : List String)
    (nonIdFieldLogicalTypes : String → NonIdMeta) : JSObj :=
  genericLogicalTypes.foldl
    (fun m t => objInsert m t (nonIdFieldLogicalTypes t).classification) []

/-- JS object spread of two objects: every entry of the second is assigned, in
insertion order, over a copy of the first. -/
def objSpread (a b : JSObj) : JSObj :=
  b.foldl (fun m p => objInsert m p.1 p.2) a

/-- Source: `defaultFieldDataTypeClassification` is the object spread of the id
map followed by the non-id map. -/
def defaultFieldDataTypeClassification (customIdLogicalTypes idLogicalTypes
    genericLogicalTypes : List String) (nonIdFieldLogicalTypes : String → NonIdMeta) : JSObj :=
  objSpread (idFieldDataTypeClassification customIdLogicalTypes idLogicalTypes)
    (nonIdFieldDataTypeClassification genericLogicalTypes nonIdFieldLogicalTypes)

/-- Model of the JS filter `(classifier, index, iter) => iter.indexOf(classifier)
=== index`: keep each value at its first occurrence only. The accumulator holds
the values already seen. -/
def dedupFirstAux (seen : List String) : List String → List String
  | [] => []
  | x :: xs => if x ∈ seen then dedupFirstAux seen xs else x :: dedupFirstAux (x :: seen) xs

/-- Source: `classifiers` is the de-duplicated (first occurrence kept) list of
values of the merged classification map. -/
def classifiers (customIdLogicalTypes idLogicalTypes genericLogicalTypes : List String)
    (nonIdFieldLogicalTypes : String → NonIdMeta) : List String :=
  dedupFirstAux []
    (objValues (defaultFieldDataTypeClassification customIdLogicalTypes idLogicalTypes
      genericLogicalTypes nonIdFieldLogicalTypes))

/-- A value-label pair, the shape of both ISecurityClassificationOption and
IFieldFormatDropdownOption. -/
structure ValueLabel where
  value : String
  label : String
  deriving DecidableEq

/-- Source: `securityClassificationDropdownOptions` prepends the empty string to
the sorted classifiers and maps each value to an option whose label is the
formatted value for a truthy (nonempty) value and the placeholder "..." for the
empty sentinel. JS default array sort on strings is modelled by lexicographic
insertion sort. -/
def securityClassificationDropdownOptions (customIdLogicalTypes idLogicalTypes
    genericLogicalTypes : List String) (nonIdFieldLogicalTypes : String → NonIdMeta) :
    List ValueLabel :=
  ("" :: List.insertionSort (· ≤ ·)
      (classifiers customIdLogicalTypes idLogicalTypes genericLogicalTypes
        nonIdFieldLogicalTypes)).map
    (fun v => ⟨v, if v = "" then "..." else formatAsCapitalizedStringWithSpaces v⟩)

/-- The two legal arguments of logicalTypeValueLabel, the TS union of the
literal types "id" and "generic". -/
inductive LogicalTypeKind
  | id
  | generic
  deriving DecidableEq

/-- Model of the regex replace `value.replace(/_/g, " ")`: every underscore
becomes a space. -/
def replaceUnderscoresL : List Char → List Char :=
  List.map (fun c => if c = '_' then ' ' else c)

/-- Replacement applied to one maximal uppercase run: a run of length at least
3 is lower-cased and its first letter capitalized (the regex callback
`value => capitalize(value.toLowerCase())`), a shorter run passes through. -/
def flushUpperRun (run : List Char) : List Char :=
  if 3 ≤ run.length then capitalizeL (run.map Char.toLower) else run

/-- Model of the regex replace of `/([A-Z]{3,})/g`, scanning left to right: the
accumulator carries the current run of consecutive uppercase ASCII letters,
flushed through flushUpperRun at each non-uppercase character and at the end. -/
def replaceUpperRunsAux (run : List Char) : List Char → List Char
  | [] => flushUpperRun run
  | c :: cs =>
    if c.isUpper then replaceUpperRunsAux (run ++ [c]) cs
    else flushUpperRun run ++ c :: replaceUpperRunsAux [] cs

/-- Model of `value.replace(/([A-Z]{3,})/g, value => capitalize(value.toLowerCase()))`:
every maximal run of 3 or more consecutive uppercase letters is lower-cased and
then its first letter capitalized; shorter runs and other characters pass
through. -/
def replaceUpperRunsL (l : List Char) : List Char := replaceUpperRunsAux [] l

/-- The identifier-category label transform of the source: underscores to
spaces, then 3-or-longer uppercase runs title-cased. -/
def idLabelTransform (v : String) : String :=
  ⟨replaceUpperRunsL (replaceUnderscoresL v.data)⟩

/-- Source: `logicalTypeValueLabel` selects the enumeration matching the kind
and maps each value to a value-label pair; generic labels come from the
registry displayAs, id labels from the underscore/uppercase-run transform. -/
def logicalTypeValueLabel (idLogicalTypes genericLogicalTypes : List String)
    (nonIdFieldLogicalTypes : String → NonIdMeta) (kind : LogicalTypeKind) :
    List ValueLabel :=
  let logicalTypes := match kind with
    | .id => idLogicalTypes
    | .generic => genericLogicalTypes
  logicalTypes.map (fun v =>
    match kind with
    | .generic => ⟨v, (nonIdFieldLogicalTypes v).displayAs⟩
    | .id => ⟨v, idLabelTransform v⟩)

/-- The raw-schema tagged union of the SchemaDefinition record. Modelled from
the spec: the payload records of the variants are external platform-specific
schema representations, modelled as the observed schema text; Schemaless is a
payload-free marker. -/
inductive RawSchema
  | avroSchema (content : String)
  | binaryJsonSchema (content : String)
  | ddl (content : String)
  | espressoSchema (content : String)
  | keyValueSchema (content : String)
  | orcSchema (content : String)
  | parquetSchema (content : String)
  | schemaless
  deriving DecidableEq

/-- Modelled from the spec: the normalized schema record is external, a single
well-defined canonical representation, modelled by its content. -/
structure NormalizedSchema where
  content : String
  deriving DecidableEq

/-- Source: the SchemaDefinition record with two independently optional
fields. -/
structure SchemaDefinition where
  rawSchema : Option RawSchema
  normalizedSchema : Option NormalizedSchema
  deriving DecidableEq

/-- Discriminator for the AvroSchema variant. -/
def isAvroSchema : RawSchema → Bool
  | .avroSchema _ => true
  | _ => false

/-- Discriminator for the BinaryJsonSchema variant. -/
def isBinaryJsonSchema : RawSchema → Bool
  | .binaryJsonSchema _ => true
  | _ => false

/-- Discriminator for the DDL variant. -/
def isDDL : RawSchema → Bool
  | .ddl _ => true
  | _ => false

/-- Discriminator for the EspressoSchema variant. -/
def isEspressoSchema : RawSchema → Bool
  | .espressoSchema _ => true
  | _ => false

/-- Discriminator for the KeyValueSchema variant. -/
def isKeyValueSchema : RawSchema → Bool
  | .keyValueSchema _ => true
  | _ => false

/-- Discriminator for the OrcSchema variant. -/
def isOrcSchema : RawSchema → Bool
  | .orcSchema _ => true
  | _ => false

/-- Discriminator for the ParquetSchema variant. -/
def isParquetSchema : RawSchema → Bool
  | .parquetSchema _ => true
  | _ => false

/-- Discriminator for the Schemaless variant. -/
def isSchemaless : RawSchema → Bool
  | .schemaless => true
  | _ => false

/-- Helper: uppercasing a character twice is the same as uppercasing it once. -/
theorem char_toUpper_idem (c : Char) : c.toUpper.toUpper = c.toUpper := by
  unfold Char.toUpper
  by_cases h : c.toNat ≥ 97 ∧ c.toNat ≤ 122
  · rw [if_pos h]
    have hv : (c.toNat - 32).isValidChar := Or.inl (by omega)
    have ht : (Char.ofNat (c.toNat - 32)).toNat = c.toNat - 32 := by
      rw [Char.ofNat, dif_pos hv]
      rfl
    rw [if_neg (by omega)]
  · rw [if_neg h, if_neg h]

/-- Helper: the space character is unchanged by uppercasing. -/
theorem char_toUpper_space : ' '.toUpper = ' ' := by decide

/-- Helper: the source space-insertion step agrees with the spec-side foldr
formulation on every character list. -/
theorem insertSpacesL_eq_foldr (l : List Char) :
    insertSpacesL l = l.foldr (fun c acc => (if c.isUpper then [' ', c] else [c]) ++ acc) [] := by
  induction l with
  | nil => rfl
  | cons c cs ih =>
    simp only [insertSpacesL, List.foldr_cons, ih]
    by_cases h : c.isUpper <;> simp [h]

/-- C3: for every input string, formatAsCapitalizedStringWithSpaces equals the
result of inserting a space before every uppercase letter and then
capitalizing only the first character of the result. -/
theorem formatAsCapitalizedStringWithSpaces_spec (s : String) :
    formatAsCapitalizedStringWithSpaces s = specCapitalizedWithSpaces s := by
  unfold formatAsCapitalizedStringWithSpaces specCapitalizedWithSpaces specInsertSpaces
  simp only [← insertSpacesL_eq_foldr]
  cases h : insertSpacesL s.data with
  | nil => simp [capitalizeL, h]
  | cons c cs => simp [capitalizeL, h]

/-- Helper: the first character produced by the space-insertion step is either
a space or a character fixed by a further toUpper after one capitalization;
hence capitalizing an already-capitalized spaced string is the identity. -/
theorem capitalizeL_insertSpacesL_capitalizeL (l : List Char) :
    capitalizeL (insertSpacesL (capitalizeL l)) = insertSpacesL (capitalizeL l) := by
  cases l with
  | nil => rfl
  | cons c cs =>
    simp only [capitalizeL, insertSpacesL]
    by_cases h : (c.toUpper).isUpper
    · simp [h, capitalizeL, char_toUpper_space]
    · simp [h, capitalizeL, char_toUpper_idem]

/-- C4 counterexample: the transform is not idempotent; on the camelCase input
"fooBar" a second application yields " Foo  Bar" while one application yields
"Foo Bar". -/
theorem formatAsCapitalizedStringWithSpaces_not_idempotent :
    formatAsCapitalizedStringWithSpaces (formatAsCapitalizedStringWithSpaces "fooBar") ≠
      formatAsCapitalizedStringWithSpaces "fooBar" := by
  decide

/-- C4 (amended): applying the transform twice is the same as applying it once
and then inserting one further space before every uppercase letter of the
once-formatted string; the capitalize step is the identity on that second
pass (the first letter stays capitalized), but the space-insertion step does
double-insert spaces, so the transform is not idempotent on camelCase input. -/
theorem formatAsCapitalizedStringWithSpaces_twice (s : String) :
    formatAsCapitalizedStringWithSpaces (formatAsCapitalizedStringWithSpaces s) =
      ⟨insertSpacesL (formatAsCapitalizedStringWithSpaces s).data⟩ := by
  unfold formatAsCapitalizedStringWithSpaces
  exact congrArg String.mk (capitalizeL_insertSpacesL_capitalizeL (insertSpacesL s.data))

/-- C10: on every input string beginning with an uppercase letter, the
transform inserts a space before the leading capital and the capitalize step
leaves that leading space unchanged, so the result begins with a space
followed by the original leading capital. -/
theorem formatAsCapitalizedStringWithSpaces_leading_upper (s : String) (c : Char)
    (cs : List Char) (h : s.data = c :: cs) (hc : c.isUpper = true) :
    (formatAsCapitalizedStringWithSpaces s).data = ' ' :: c :: insertSpacesL cs := by
  unfold formatAsCapitalizedStringWithSpaces
  show capitalizeL (insertSpacesL s.data) = _
  rw [h]
  simp [insertSpacesL, hc, capitalizeL, char_toUpper_space]

/-- C10 witness: concrete instance at the input "Hi". -/
theorem formatAsCapitalizedStringWithSpaces_leading_upper_witness :
    ("Hi".data = 'H' :: ['i'] ∧ 'H'.isUpper = true) ∧
      (formatAsCapitalizedStringWithSpaces "Hi").data = ' ' :: 'H' :: insertSpacesL ['i'] :=
  ⟨⟨rfl, by decide⟩,
    formatAsCapitalizedStringWithSpaces_leading_upper "Hi" 'H' ['i'] rfl (by decide)⟩

/-- C5: getDefaultLogicalType returns the fixed label "URN" exactly when
isMixedId holds and no value otherwise; in particular it returns "URN" at
"generic" and no value at "urn". -/
theorem getDefaultLogicalType_spec :
    (∀ identifierType,
      (getDefaultLogicalType identifierType = some "URN" ↔ isMixedId identifierType = true) ∧
      (getDefaultLogicalType identifierType = none ↔ isMixedId identifierType = false)) ∧
    getDefaultLogicalType "generic" = some "URN" ∧ getDefaultLogicalType "urn" = none := by
  refine ⟨fun t => ?_, by decide, by decide⟩
  unfold getDefaultLogicalType
  by_cases h : isMixedId t = true <;> simp [h]

/-- C6: hasPredefinedFieldFormat holds exactly when isMixedId or isCustomId
holds; concretely isMixedId is true at "generic" and false at "custom",
isCustomId is true at "custom", and hasPredefinedFieldFormat is true at
"custom" and false at "urn". -/
theorem hasPredefinedFieldFormat_spec :
    (∀ identifierType, hasPredefinedFieldFormat identifierType = true ↔
      (isMixedId identifierType = true ∨ isCustomId identifierType = true)) ∧
    isMixedId "generic" = true ∧ isMixedId "custom" = false ∧
    isCustomId "custom" = true ∧ hasPredefinedFieldFormat "custom" = true ∧
    hasPredefinedFieldFormat "urn" = false := by
  refine ⟨fun t => ?_, by decide, by decide, by decide, by decide, by decide⟩
  simp [hasPredefinedFieldFormat, Bool.or_eq_true]

/-- C8: logicalTypeValueLabel yields one value-label pair per entry of the
selected enumeration, in order; generic labels are the registry displayAs
names, id labels come from the underscore-to-space and 3-plus-uppercase-run
transform, under which an all-caps token such as "URN" becomes the single
capitalized word "Urn", "MEMBER_ID" becomes "Member ID" (the two-letter run
"ID" is left as is), and "REVERSED_URN" becomes "Reversed Urn". -/
theorem logicalTypeValueLabel_spec (idLogicalTypes genericLogicalTypes : List String)
    (nonIdFieldLogicalTypes : String → NonIdMeta) :
    logicalTypeValueLabel idLogicalTypes genericLogicalTypes nonIdFieldLogicalTypes .generic =
      genericLogicalTypes.map (fun v => ⟨v, (nonIdFieldLogicalTypes v).displayAs⟩) ∧
    logicalTypeValueLabel idLogicalTypes genericLogicalTypes nonIdFieldLogicalTypes .id =
      idLogicalTypes.map (fun v => ⟨v, idLabelTransform v⟩) ∧
    (logicalTypeValueLabel idLogicalTypes genericLogicalTypes nonIdFieldLogicalTypes
      .generic).length = genericLogicalTypes.length ∧
    (logicalTypeValueLabel idLogicalTypes genericLogicalTypes nonIdFieldLogicalTypes
      .id).length = idLogicalTypes.length ∧
    idLabelTransform "URN" = "Urn" ∧
    idLabelTransform "MEMBER_ID" = "Member ID" ∧
    idLabelTransform "REVERSED_URN" = "Reversed Urn" := by
  refine ⟨rfl, rfl, ?_, ?_, by decide, by decide, by decide⟩ <;>
    simp [logicalTypeValueLabel]

/-- C9: both fields of SchemaDefinition are independently optional (every
combination of presence and absence is realized by a value of the type), and a
present rawSchema holds exactly one of the eight variants of the closed
union. -/
theorem SchemaDefinition_spec :
    (∀ (r : Option RawSchema) (n : Option NormalizedSchema),
      ∃ d : SchemaDefinition, d.rawSchema = r ∧ d.normalizedSchema = n) ∧
    (∀ v : RawSchema,
      (isAvroSchema v).toNat + (isBinaryJsonSchema v).toNat + (isDDL v).toNat +
        (isEspressoSchema v).toNat + (isKeyValueSchema v).toNat + (isOrcSchema v).toNat +
        (isParquetSchema v).toNat + (isSchemaless v).toNat = 1) := by
  refine ⟨fun r n => ⟨⟨r, n⟩, rfl, rfl⟩, fun v => ?_⟩
  cases v <;> rfl

/-- Helper: optOr with an empty second choice. -/
theorem optOr_none (x : Option String) : optOr x none = x := by
  cases x <;> rfl

/-- Helper: lookup distributes over list append through optOr. -/
theorem objLookup_append (a b : JSObj) (k : String) :
    objLookup (a ++ b) k = optOr (objLookup a k) (objLookup b k) := by
  induction a with
  | nil => simp [objLookup, optOr]
  | cons p ps ih =>
    by_cases h : p.1 = k <;> simp [objLookup, h, ih, optOr]

/-- Helper: lookup after the in-place update of every entry keyed k. -/
theorem objLookup_map_set (m : JSObj) (k v k' : String) :
    objLookup (m.map (fun p => if p.1 = k then (k, v) else p)) k' =
      if k = k' then (objLookup m k).map (fun _ => v) else objLookup m k' := by
  induction m with
  | nil => simp [objLookup]
  | cons p ps ih =>
    by_cases h1 : p.1 = k
    · by_cases h2 : k = k'
      · subst h2
        simp [objLookup, h1]
      · simp [objLookup, h1, h2, ih]
    · by_cases h2 : p.1 = k'
      · have hkk : ¬ k = k' := fun h => h1 (h2.trans h.symm)
        have hkk2 : ¬ k' = k := fun h => hkk h.symm
        simp [objLookup, h1, h2, hkk, hkk2]
      · simp [objLookup, h1, h2, ih]

/-- Helper: an object has an entry keyed k exactly when the lookup at k is
some value. -/
theorem objLookup_isSome_any (m : JSObj) (k : String) :
    m.any (fun p => p.1 == k) = (objLookup m k).isSome := by
  induction m with
  | nil => rfl
  | cons p ps ih =>
    by_cases h : p.1 = k <;> simp [objLookup, h, ih]

/-- Helper: the lookup read-back of a JS property assignment. -/
theorem objLookup_objInsert (m : JSObj) (k v k' : String) :
    objLookup (objInsert m k v) k' = if k = k' then some v else objLookup m k' := by
  unfold objInsert
  by_cases hmem : m.any (fun p => p.1 == k) = true
  · rw [if_pos hmem, objLookup_map_set]
    rw [objLookup_isSome_any] at hmem
    by_cases h2 : k = k'
    · cases ho : objLookup m k with
      | none => rw [ho] at hmem; simp at hmem
      | some w => simp [h2, ho]
    · simp [h2]
  · rw [if_neg hmem, objLookup_append]
    rw [objLookup_isSome_any] at hmem
    have hnone : objLookup m k = none := by
      cases ho : objLookup m k with
      | none => rfl
      | some w => rw [ho] at hmem; simp at hmem
    by_cases h2 : k = k'
    · subst h2
      simp [hnone, optOr, objLookup]
    · have : objLookup [(k, v)] k' = none := by
        simp [objLookup, h2]
      rw [this, optOr_none, if_neg h2]

/-- Helper: every entry of an object after an assignment is an original entry
or the assigned pair. -/
theorem mem_objInsert {p : String × String} {m : JSObj} {k v : String}
    (h : p ∈ objInsert m k v) : p ∈ m ∨ p = (k, v) := by
  unfold objInsert at h
  by_cases hmem : m.any (fun q => q.1 == k) = true
  · rw [if_pos hmem] at h
    obtain ⟨q, hq, hqp⟩ := List.mem_map.mp h
    by_cases h1 : q.1 = k
    · rw [if_pos h1] at hqp
      exact Or.inr hqp.symm
    · rw [if_neg h1] at hqp
      exact Or.inl (hqp ▸ hq)
  · rw [if_neg hmem] at h
    rcases List.mem_append.mp h with h1 | h1
    · exact Or.inl h1
    · simp at h1
      exact Or.inr (by simp [h1])

/-- Helper: lookup in a fold that assigns, to every key of a list, a value
determined by that key. -/
theorem objLookup_foldl_fn (f : String → String) (l : List String) (init : JSObj) (k : String) :
    objLookup (l.foldl (fun m t => objInsert m t (f t)) init) k =
      if k ∈ l then some (f k) else objLookup init k := by
  induction l generalizing init with
  | nil => simp
  | cons t ts ih =>
    simp only [List.foldl_cons, ih, objLookup_objInsert, List.mem_cons]
    by_cases h1 : k ∈ ts
    · simp [h1]
    · by_cases h2 : k = t
      · subst h2
        simp [h1]
      · have h3 : ¬ t = k := fun h => h2 h.symm
        simp [h1, h2, h3]

/-- Helper: every entry of such a fold is an entry of the start object or a
pair made of a listed key and its determined value. -/
theorem mem_foldl_insert (f : String → String) (l : List String) (init : JSObj)
    (p : String × String) (h : p ∈ l.foldl (fun m t => objInsert m t (f t)) init) :
    p ∈ init ∨ ∃ t ∈ l, p = (t, f t) := by
  induction l generalizing init with
  | nil => exact Or.inl h
  | cons t ts ih =>
    simp only [List.foldl_cons] at h
    rcases ih _ h with h1 | ⟨u, hu, hp⟩
    · rcases mem_objInsert h1 with h3 | h3
      · exact Or.inl h3
      · exact Or.inr ⟨t, List.mem_cons_self t ts, h3⟩
    · exact Or.inr ⟨u, List.mem_cons_of_mem _ hu, hp⟩

/-- Helper: a successful lookup comes from an actual entry. -/
theorem objLookup_some_mem {m : JSObj} {k v : String} (h : objLookup m k = some v) :
    ∃ p ∈ m, p.1 = k ∧ p.2 = v := by
  induction m with
  | nil => simp [objLookup] at h
  | cons p ps ih =>
    rw [objLookup] at h
    by_cases h1 : p.1 = k
    · rw [if_pos h1] at h
      exact ⟨p, List.mem_cons_self p ps, h1, Option.some.inj h⟩
    · rw [if_neg h1] at h
      obtain ⟨q, hq, h2⟩ := ih h
      exact ⟨q, List.mem_cons_of_mem _ hq, h2⟩

/-- Helper: lookup after an object spread whose second object has values
determined by their keys: the second object wins where it has the key. -/
theorem objLookup_objSpread_keydet (f : String → String) :
    ∀ (b : JSObj), (∀ p ∈ b, p.2 = f p.1) → ∀ (a : JSObj) (k : String),
      objLookup (objSpread a b) k = optOr (objLookup b k) (objLookup a k) := by
  intro b
  induction b with
  | nil =>
    intro _ a k
    simp [objSpread, objLookup, optOr]
  | cons p ps ih =>
    intro hb a k
    have hps : ∀ q ∈ ps, q.2 = f q.1 := fun q hq => hb q (List.mem_cons_of_mem _ hq)
    rw [show objSpread a (p :: ps) = objSpread (objInsert a p.1 p.2) ps from rfl]
    rw [ih hps, objLookup_objInsert]
    simp only [objLookup]
    by_cases h1 : p.1 = k
    · rw [if_pos h1, if_pos h1]
      cases ho : objLookup ps k with
      | none => rfl
      | some w =>
        obtain ⟨q, hq, hqk, hqv⟩ := objLookup_some_mem ho
        have hw : w = f k := by rw [← hqv, hps q hq, hqk]
        have hp2 : p.2 = f k := by rw [hb p (List.mem_cons_self p ps), h1]
        simp [optOr, hw, hp2]
    · rw [if_neg h1, if_neg h1]

/-- Helper: full lookup characterization of the merged classification map: a
generic name maps to its registry classification, any other id name maps to
the limited-distribution classification, all other keys are absent. -/
theorem defaultFieldDataTypeClassification_lookup (customIds idIds genIds : List String)
    (meta : String → NonIdMeta) (k : String) :
    objLookup (defaultFieldDataTypeClassification customIds idIds genIds meta) k =
      if k ∈ genIds then some ((meta k).classification)
      else if k ∈ customIds ++ idIds then some limitedDistribution
      else none := by
  unfold defaultFieldDataTypeClassification
  have hkey : ∀ p ∈ nonIdFieldDataTypeClassification genIds meta,
      p.2 = (meta p.1).classification := by
    intro p hp
    unfold nonIdFieldDataTypeClassification at hp
    rcases mem_foldl_insert _ _ _ _ hp with h | ⟨t, _, hpt⟩
    · simp at h
    · rw [hpt]
  rw [objLookup_objSpread_keydet (fun t => (meta t).classification) _ hkey]
  unfold nonIdFieldDataTypeClassification idFieldDataTypeClassification
  rw [objLookup_foldl_fn, objLookup_foldl_fn]
  by_cases h1 : k ∈ genIds <;> by_cases h2 : k ∈ customIds ++ idIds <;>
    simp [h1, h2, optOr, objLookup]

/-- C2: starting from the empty object, every custom then standard identifier
logical-type name is assigned the fixed limited-distribution classification,
every generic name is assigned its registry classification, and the merged map
has exactly the key union of the two source maps; the spec notes the source
enumerations are disjoint, taken here as a hypothesis. -/
theorem defaultFieldDataTypeClassification_spec (customIds idIds genIds : List String)
    (meta : String → NonIdMeta) (hdisj : ∀ t ∈ customIds ++ idIds, t ∉ genIds) :
    (∀ t ∈ customIds ++ idIds,
      objLookup (defaultFieldDataTypeClassification customIds idIds genIds meta) t =
        some limitedDistribution) ∧
    (∀ t ∈ genIds,
      objLookup (defaultFieldDataTypeClassification customIds idIds genIds meta) t =
        some ((meta t).classification)) ∧
    (∀ k, (objLookup (defaultFieldDataTypeClassification customIds idIds genIds meta) k).isSome ↔
      ((objLookup (idFieldDataTypeClassification customIds idIds) k).isSome ∨
        (objLookup (nonIdFieldDataTypeClassification genIds meta) k).isSome)) := by
  refine ⟨fun t ht => ?_, fun t ht => ?_, fun k => ?_⟩
  · rw [defaultFieldDataTypeClassification_lookup, if_neg (hdisj t ht), if_pos ht]
  · rw [defaultFieldDataTypeClassification_lookup, if_pos ht]
  · rw [defaultFieldDataTypeClassification_lookup]
    unfold idFieldDataTypeClassification nonIdFieldDataTypeClassification
    rw [objLookup_foldl_fn, objLookup_foldl_fn]
    by_cases h1 : k ∈ genIds <;> by_cases h2 : k ∈ customIds ++ idIds <;>
      simp [h1, h2, objLookup]

/-- C2 witness: concrete instance with one custom id type, one id type and one
generic type. -/
theorem defaultFieldDataTypeClassification_spec_witness :
    (∀ t ∈ ["CUSTOM_ID"] ++ ["URN_ID"], t ∉ ["NAME"]) ∧
      ((∀ t ∈ ["CUSTOM_ID"] ++ ["URN_ID"],
        objLookup (defaultFieldDataTypeClassification ["CUSTOM_ID"] ["URN_ID"] ["NAME"]
          (fun _ => ⟨"confidential", "Name"⟩)) t = some limitedDistribution) ∧
      (∀ t ∈ ["NAME"],
        objLookup (defaultFieldDataTypeClassification ["CUSTOM_ID"] ["URN_ID"] ["NAME"]
          (fun _ => ⟨"confidential", "Name"⟩)) t =
          some (((fun _ => (⟨"confidential", "Name"⟩ : NonIdMeta)) t).classification)) ∧
      (∀ k, (objLookup (defaultFieldDataTypeClassification ["CUSTOM_ID"] ["URN_ID"] ["NAME"]
          (fun _ => ⟨"confidential", "Name"⟩)) k).isSome ↔
        ((objLookup (idFieldDataTypeClassification ["CUSTOM_ID"] ["URN_ID"]) k).isSome ∨
          (objLookup (nonIdFieldDataTypeClassification ["NAME"]
            (fun _ => ⟨"confidential", "Name"⟩)) k).isSome))) :=
  ⟨by decide,
    defaultFieldDataTypeClassification_spec ["CUSTOM_ID"] ["URN_ID"] ["NAME"]
      (fun _ => ⟨"confidential", "Name"⟩) (by decide)⟩

/-- C7: under the disjointness of the source enumerations recorded by the spec,
every key of the merged map comes from exactly one of the two source maps,
never both, and every key of the id map still maps to the limited-distribution
classification in the merged map. -/
theorem defaultFieldDataTypeClassification_partition (customIds idIds genIds : List String)
    (meta : String → NonIdMeta) (hdisj : ∀ t ∈ customIds ++ idIds, t ∉ genIds) :
    (∀ k, (objLookup (defaultFieldDataTypeClassification customIds idIds genIds meta) k).isSome →
      (((objLookup (idFieldDataTypeClassification customIds idIds) k).isSome ∧
          ¬ (objLookup (nonIdFieldDataTypeClassification genIds meta) k).isSome) ∨
        ((objLookup (nonIdFieldDataTypeClassification genIds meta) k).isSome ∧
          ¬ (objLookup (idFieldDataTypeClassification customIds idIds) k).isSome))) ∧
    (∀ k, (objLookup (idFieldDataTypeClassification customIds idIds) k).isSome →
      objLookup (defaultFieldDataTypeClassification customIds idIds genIds meta) k =
        some limitedDistribution) := by
  constructor
  · intro k hk
    rw [defaultFieldDataTypeClassification_lookup] at hk
    unfold idFieldDataTypeClassification nonIdFieldDataTypeClassification
    rw [objLookup_foldl_fn, objLookup_foldl_fn]
    by_cases h1 : k ∈ genIds
    · right
      have h2 : k ∉ customIds ++ idIds := fun hc => hdisj k hc h1
      simp [h1, h2, objLookup]
    · by_cases h2 : k ∈ customIds ++ idIds
      · left
        simp [h1, h2, objLookup]
      · rw [if_neg h1, if_neg h2] at hk
        simp [objLookup] at hk
  · intro k hk
    unfold idFieldDataTypeClassification at hk
    rw [objLookup_foldl_fn] at hk
    by_cases h2 : k ∈ customIds ++ idIds
    · rw [defaultFieldDataTypeClassification_lookup, if_neg (hdisj k h2), if_pos h2]
    · rw [if_neg h2] at hk
      simp [objLookup] at hk

/-- C7 witness: concrete instance with one custom id type, one id type and one
generic type. -/
theorem defaultFieldDataTypeClassification_partition_witness :
    (∀ t ∈ ["CUSTOM_ID"] ++ ["URN_ID"], t ∉ ["NAME"]) ∧
      ((∀ k, (objLookup (defaultFieldDataTypeClassification ["CUSTOM_ID"] ["URN_ID"] ["NAME"]
          (fun _ => ⟨"confidential", "Name"⟩)) k).isSome →
        (((objLookup (idFieldDataTypeClassification ["CUSTOM_ID"] ["URN_ID"]) k).isSome ∧
            ¬ (objLookup (nonIdFieldDataTypeClassification ["NAME"]
              (fun _ => ⟨"confidential", "Name"⟩)) k).isSome) ∨
          ((objLookup (nonIdFieldDataTypeClassification ["NAME"]
              (fun _ => ⟨"confidential", "Name"⟩)) k).isSome ∧
            ¬ (objLookup (idFieldDataTypeClassification ["CUSTOM_ID"] ["URN_ID"]) k).isSome))) ∧
      (∀ k, (objLookup (idFieldDataTypeClassification ["CUSTOM_ID"] ["URN_ID"]) k).isSome →
        objLookup (defaultFieldDataTypeClassification ["CUSTOM_ID"] ["URN_ID"] ["NAME"]
          (fun _ => ⟨"confidential", "Name"⟩)) k = some limitedDistribution)) :=
  ⟨by decide,
    defaultFieldDataTypeClassification_partition ["CUSTOM_ID"] ["URN_ID"] ["NAME"]
      (fun _ => ⟨"confidential", "Name"⟩) (by decide)⟩

/-- Helper: membership in the first-occurrence de-duplication. -/
theorem mem_dedupFirstAux (l : List String) :
    ∀ (seen : List String) (x : String), x ∈ dedupFirstAux seen l ↔ x ∈ l ∧ x ∉ seen := by
  induction l with
  | nil => intro seen x; simp [dedupFirstAux]
  | cons y ys ih =>
    intro seen x
    unfold dedupFirstAux
    by_cases h : y ∈ seen
    · rw [if_pos h, ih]
      constructor
      · rintro ⟨hx, hs⟩
        exact ⟨List.mem_cons_of_mem _ hx, hs⟩
      · rintro ⟨hx, hs⟩
        rcases List.mem_cons.mp hx with rfl | hx2
        · exact absurd h hs
        · exact ⟨hx2, hs⟩
    · rw [if_neg h]
      constructor
      · intro hx
        rcases List.mem_cons.mp hx with rfl | hx2
        · exact ⟨List.mem_cons_self _ _, h⟩
        · obtain ⟨h1, h2⟩ := (ih _ _).mp hx2
          exact ⟨List.mem_cons_of_mem _ h1,
            fun hk => h2 (List.mem_cons_of_mem _ hk)⟩
      · rintro ⟨hx, hs⟩
        rcases List.mem_cons.mp hx with rfl | hx2
        · exact List.mem_cons_self _ _
        · by_cases hxy : x = y
          · exact hxy ▸ List.mem_cons_self _ _
          · refine List.mem_cons_of_mem _ ((ih _ _).mpr ⟨hx2, ?_⟩)
            intro hk
            rcases List.mem_cons.mp hk with h3 | h3
            · exact hxy h3
            · exact hs h3

/-- Helper: the first-occurrence de-duplication has no duplicates. -/
theorem nodup_dedupFirstAux (l : List String) :
    ∀ seen : List String, (dedupFirstAux seen l).Nodup := by
  induction l with
  | nil => intro seen; simp [dedupFirstAux]
  | cons y ys ih =>
    intro seen
    unfold dedupFirstAux
    by_cases h : y ∈ seen
    · rw [if_pos h]
      exact ih _
    · rw [if_neg h]
      refine List.nodup_cons.mpr ⟨?_, ih _⟩
      rw [mem_dedupFirstAux]
      rintro ⟨_, hns⟩
      exact hns (List.mem_cons_self _ _)

/-- Helper: every entry of an object spread is an entry of one of the two
objects. -/
theorem mem_objSpread {p : String × String} :
    ∀ {b a : JSObj}, p ∈ objSpread a b → p ∈ a ∨ p ∈ b := by
  intro b
  induction b with
  | nil => intro a h; exact Or.inl h
  | cons q qs ih =>
    intro a h
    rw [show objSpread a (q :: qs) = objSpread (objInsert a q.1 q.2) qs from rfl] at h
    rcases ih h with h1 | h1
    · rcases mem_objInsert h1 with h2 | h2
      · exact Or.inl h2
      · exact Or.inr (h2 ▸ List.mem_cons_self q qs)
    · exact Or.inr (List.mem_cons_of_mem _ h1)

/-- Helper: when every registry classification of a listed generic type is
nonempty, every classifier drawn from the merged map is nonempty: its value is
either the limited-distribution constant or such a registry classification. -/
theorem classifiers_ne_empty (customIds idIds genIds : List String)
    (meta : String → NonIdMeta) (hmeta : ∀ t ∈ genIds, (meta t).classification ≠ "") :
    ∀ v ∈ classifiers customIds idIds genIds meta, v ≠ "" := by
  intro v hv
  unfold classifiers at hv
  rw [mem_dedupFirstAux] at hv
  obtain ⟨hv, _⟩ := hv
  unfold objValues at hv
  obtain ⟨p, hp, hpv⟩ := List.mem_map.mp hv
  unfold defaultFieldDataTypeClassification at hp
  rcases mem_objSpread hp with h | h
  · unfold idFieldDataTypeClassification at h
    rcases mem_foldl_insert _ _ _ _ h with h0 | ⟨t, _, hpt⟩
    · simp at h0
    · rw [← hpv, hpt]
      show limitedDistribution ≠ ""
      decide
  · unfold nonIdFieldDataTypeClassification at h
    rcases mem_foldl_insert _ _ _ _ h with h0 | ⟨t, ht, hpt⟩
    · simp at h0
    · rw [← hpv, hpt]
      exact hmeta t ht

/-- C1: the dropdown options are one leading empty-value sentinel labelled
"..." followed by exactly one entry per distinct classifier of the merged
classification map, those entries in ascending lexicographic order of the
classifier value; the total length is the distinct-classifier count plus one.
Classification values are nonempty, taken as a hypothesis on the parametric
registry. -/
theorem securityClassificationDropdownOptions_spec (customIds idIds genIds : List String)
    (meta : String → NonIdMeta) (hmeta : ∀ t ∈ genIds, (meta t).classification ≠ "") :
    (securityClassificationDropdownOptions customIds idIds genIds meta).length =
      (classifiers customIds idIds genIds meta).length + 1 ∧
    (securityClassificationDropdownOptions customIds idIds genIds meta).head? =
      some ⟨"", "..."⟩ ∧
    (classifiers customIds idIds genIds meta).Nodup ∧
    (∀ v, v ∈ classifiers customIds idIds genIds meta ↔
      v ∈ objValues (defaultFieldDataTypeClassification customIds idIds genIds meta)) ∧
    ((securityClassificationDropdownOptions customIds idIds genIds meta).tail.map
      ValueLabel.value).Perm (classifiers customIds idIds genIds meta) ∧
    ((securityClassificationDropdownOptions customIds idIds genIds meta).tail.map
      ValueLabel.value).Sorted (· < ·) ∧
    (∀ o ∈ (securityClassificationDropdownOptions customIds idIds genIds meta).tail,
      o.value ≠ "" ∧ o.label = formatAsCapitalizedStringWithSpaces o.value) := by
  have htail : (securityClassificationDropdownOptions customIds idIds genIds meta).tail =
      (List.insertionSort (· ≤ ·) (classifiers customIds idIds genIds meta)).map
        (fun v => ⟨v, if v = "" then "..." else formatAsCapitalizedStringWithSpaces v⟩) := by
    unfold securityClassificationDropdownOptions
    rw [List.map_cons]
    rfl
  have hvals : (securityClassificationDropdownOptions customIds idIds genIds meta).tail.map
      ValueLabel.value = List.insertionSort (· ≤ ·) (classifiers customIds idIds genIds meta) := by
    rw [htail, List.map_map]
    have hid : (ValueLabel.value ∘ fun v =>
        (⟨v, if v = "" then "..." else formatAsCapitalizedStringWithSpaces v⟩ : ValueLabel)) =
          fun v => v := rfl
    rw [hid]
    exact List.map_id' _
  have hnodup : (classifiers customIds idIds genIds meta).Nodup := nodup_dedupFirstAux _ _
  have hperm : (List.insertionSort (· ≤ ·) (classifiers customIds idIds genIds meta)).Perm
      (classifiers customIds idIds genIds meta) := List.perm_insertionSort _ _
  refine ⟨?_, ?_, hnodup, ?_, ?_, ?_, ?_⟩
  · unfold securityClassificationDropdownOptions
    rw [List.length_map, List.length_cons, hperm.length_eq]
  · unfold securityClassificationDropdownOptions
    rw [List.map_cons]
    simp
  · intro v
    unfold classifiers
    rw [mem_dedupFirstAux]
    simp
  · rw [hvals]
    exact hperm
  · rw [hvals]
    refine List.Sorted.lt_of_le (List.sorted_insertionSort _ _) ?_
    exact hperm.nodup_iff.mpr hnodup
  · intro o ho
    rw [htail] at ho
    obtain ⟨v, hv, hvo⟩ := List.mem_map.mp ho
    have hvne : v ≠ "" :=
      classifiers_ne_empty customIds idIds genIds meta hmeta v (hperm.subset hv)
    rw [← hvo]
    simp [hvne]

/-- C1 witness: concrete instance with one custom id type, one id type and one
generic type carrying a nonempty classification. -/
theorem securityClassificationDropdownOptions_spec_witness :
    (∀ t ∈ ["NAME"], (((fun _ => (⟨"confidential", "Name"⟩ : NonIdMeta)) t)).classification ≠ "") ∧
      ((securityClassificationDropdownOptions ["CUSTOM_ID"] ["URN_ID"] ["NAME"]
          (fun _ => ⟨"confidential", "Name"⟩)).length =
        (classifiers ["CUSTOM_ID"] ["URN_ID"] ["NAME"]
          (fun _ => ⟨"confidential", "Name"⟩)).length + 1 ∧
      (securityClassificationDropdownOptions ["CUSTOM_ID"] ["URN_ID"] ["NAME"]
          (fun _ => ⟨"confidential", "Name"⟩)).head? = some ⟨"", "..."⟩ ∧
      (classifiers ["CUSTOM_ID"] ["URN_ID"] ["NAME"]
          (fun _ => ⟨"confidential", "Name"⟩)).Nodup ∧
      (∀ v, v ∈ classifiers ["CUSTOM_ID"] ["URN_ID"] ["NAME"]
          (fun _ => ⟨"confidential", "Name"⟩) ↔
        v ∈ objValues (defaultFieldDataTypeClassification ["CUSTOM_ID"] ["URN_ID"] ["NAME"]
          (fun _ => ⟨"confidential", "Name"⟩))) ∧
      ((securityClassificationDropdownOptions ["CUSTOM_ID"] ["URN_ID"] ["NAME"]
          (fun _ => ⟨"confidential", "Name"⟩)).tail.map ValueLabel.value).Perm
        (classifiers ["CUSTOM_ID"] ["URN_ID"] ["NAME"] (fun _ => ⟨"confidential", "Name"⟩)) ∧
      ((securityClassificationDropdownOptions ["CUSTOM_ID"] ["URN_ID"] ["NAME"]
          (fun _ => ⟨"confidential", "Name"⟩)).tail.map ValueLabel.value).Sorted (· < ·) ∧
      (∀ o ∈ (securityClassificationDropdownOptions ["CUSTOM_ID"] ["URN_ID"] ["NAME"]
          (fun _ => ⟨"confidential", "Name"⟩)).tail,
        o.value ≠ "" ∧ o.label = formatAsCapitalizedStringWithSpaces o.value)) :=
  ⟨by decide,
    securityClassificationDropdownOptions_spec ["CUSTOM_ID"] ["URN_ID"] ["NAME"]
      (fun _ => ⟨"confidential", "Name"⟩) (by decide)⟩
